import Mathlib

/-!
Verification of the go_ntrip streaming GNSS stack: the RTCM3/UBX frame
parsers (`internal/parser/rtcm.go`, `internal/parser/ubx.go`), the NMEA
sentence parser (`internal/parser/nmea.go`), the GGA position extractor
(`internal/position/position.go`), the position averager
(`internal/position/averager.go`) and the RTK processor
(`internal/rtk/processor.go`), shallowly embedded in Lean.

Go byte slices are embedded as `List Nat` (byte values), Go `float64`
as `ℚ` (exact decimal arithmetic), Go `map[int]int` as association
lists with Go map read semantics (missing key reads as zero), and Go
strings as `List Char`.
-/

namespace GoNtrip

/-! ## RTCM parser (`internal/parser/rtcm.go`) -/

/-- `RTCMMessage` from `internal/parser/rtcm.go`: a parsed RTCM message. -/
structure RTCMMessage where
  messageType : Nat
  length : Nat
  payload : List Nat
  valid : Bool
deriving Repr, DecidableEq

/-- The body of the `for` loop of `RTCMParser.Process`, with the parser's
byte buffer passed explicitly.  Each iteration either consumes one byte
(resynchronization) or a whole frame of `length + 6` bytes, so the buffer
length is a valid fuel; `rtcmDrain` below instantiates the fuel. -/
def rtcmDrainF : Nat → List Nat → List RTCMMessage × List Nat
  | 0, buf => ([], buf)
  | fuel + 1, buf =>
    if buf.length < 3 then ([], buf)
    else if buf.getD 0 0 = 0xD3 then
      if buf.length < 6 then ([], buf)
      else
        let len := ((buf.getD 1 0 &&& 0x03) <<< 8) ||| buf.getD 2 0
        if buf.length < len + 6 then ([], buf)
        else
          let msg : RTCMMessage :=
            { messageType := (buf.getD 3 0 <<< 4) ||| (buf.getD 4 0 >>> 4)
              length := len
              payload := (buf.drop 3).take len
              valid := true }
          let rest := rtcmDrainF fuel (buf.drop (len + 6))
          (msg :: rest.1, rest.2)
    else rtcmDrainF fuel (buf.drop 1)

/-- The message-extraction loop of `RTCMParser.Process`: returns the
messages extracted from the buffer and the remaining buffer. -/
def rtcmDrain (buf : List Nat) : List RTCMMessage × List Nat :=
  rtcmDrainF buf.length buf

/-- `RTCMParser.Process`: append the incoming chunk to the retained
buffer, then run the extraction loop.  Result: emitted messages and the
parser's new buffer. -/
def rtcmProcess (buffer data : List Nat) : List RTCMMessage × List Nat :=
  rtcmDrain (buffer ++ data)

/-- Feeding a list of chunks to the parser through successive
`Process` calls, concatenating the emitted messages. -/
def rtcmProcessChunks : List Nat → List (List Nat) → List RTCMMessage × List Nat
  | buffer, [] => ([], buffer)
  | buffer, c :: cs =>
    let r := rtcmProcess buffer c
    let rest := rtcmProcessChunks r.2 cs
    (r.1 ++ rest.1, rest.2)

/-! ## UBX parser (`internal/parser/ubx.go`) -/

/-- `UBXMessage` from `internal/parser/ubx.go`: a parsed UBX message. -/
structure UBXMessage where
  msgClass : Nat
  msgID : Nat
  length : Nat
  payload : List Nat
  valid : Bool
deriving Repr, DecidableEq

/-- The body of the `for` loop of `UBXParser.Process`, fueled like
`rtcmDrainF`. -/
def ubxDrainF : Nat → List Nat → List UBXMessage × List Nat
  | 0, buf => ([], buf)
  | fuel + 1, buf =>
    if buf.length < 6 then ([], buf)
    else if buf.getD 0 0 = 0xB5 ∧ buf.getD 1 0 = 0x62 then
      let payloadLength := buf.getD 4 0 ||| (buf.getD 5 0 <<< 8)
      if buf.length < payloadLength + 8 then ([], buf)
      else
        let msg : UBXMessage :=
          { msgClass := buf.getD 2 0
            msgID := buf.getD 3 0
            length := payloadLength
            payload := (buf.drop 6).take payloadLength
            valid := true }
        let rest := ubxDrainF fuel (buf.drop (payloadLength + 8))
        (msg :: rest.1, rest.2)
    else ubxDrainF fuel (buf.drop 1)

/-- The message-extraction loop of `UBXParser.Process`. -/
def ubxDrain (buf : List Nat) : List UBXMessage × List Nat :=
  ubxDrainF buf.length buf

/-- `UBXParser.Process`. -/
def ubxProcess (buffer data : List Nat) : List UBXMessage × List Nat :=
  ubxDrain (buffer ++ data)

/-- Feeding a list of chunks to the UBX parser through successive
`Process` calls. -/
def ubxProcessChunks : List Nat → List (List Nat) → List UBXMessage × List Nat
  | buffer, [] => ([], buffer)
  | buffer, c :: cs =>
    let r := ubxProcess buffer c
    let rest := ubxProcessChunks r.2 cs
    (r.1 ++ rest.1, rest.2)

/-! ## Chunk-invariance infrastructure for the RTCM parser -/

theorem rtcmDrainF_nil (f : Nat) : rtcmDrainF f [] = ([], []) := by
  cases f <;> simp [rtcmDrainF]

/-- The fuel in `rtcmDrainF` is irrelevant as soon as it dominates the
buffer length: every loop iteration consumes at least one byte. -/
theorem rtcmDrainF_congr : ∀ (f1 : Nat) (buf : List Nat) (f2 : Nat),
    buf.length ≤ f1 → buf.length ≤ f2 → rtcmDrainF f1 buf = rtcmDrainF f2 buf
  | 0, buf, f2, h1, _ => by
    have hb : buf = [] := List.length_eq_zero.mp (Nat.le_zero.mp h1)
    subst hb; rw [rtcmDrainF_nil, rtcmDrainF_nil]
  | _ + 1, buf, 0, _, h2 => by
    have hb : buf = [] := List.length_eq_zero.mp (Nat.le_zero.mp h2)
    subst hb; rw [rtcmDrainF_nil, rtcmDrainF_nil]
  | f1 + 1, buf, f2 + 1, h1, h2 => by
    simp only [rtcmDrainF]
    by_cases h3 : buf.length < 3
    · simp only [if_pos h3]
    · simp only [if_neg h3]
      by_cases hd : buf.getD 0 0 = 0xD3
      · simp only [if_pos hd]
        by_cases h6 : buf.length < 6
        · simp only [if_pos h6]
        · simp only [if_neg h6]
          by_cases ht : buf.length < (((buf.getD 1 0 &&& 0x03) <<< 8) ||| buf.getD 2 0) + 6
          · simp only [if_pos ht]
          · simp only [if_neg ht]
            have hdrop : (buf.drop ((((buf.getD 1 0 &&& 0x03) <<< 8) ||| buf.getD 2 0) + 6)).length
                ≤ buf.length - 1 := by
              rw [List.length_drop]; omega
            rw [rtcmDrainF_congr f1 _ f2 (by omega) (by omega)]
      · simp only [if_neg hd]
        have hdrop : (buf.drop 1).length ≤ buf.length - 1 := by
          rw [List.length_drop]
        rw [rtcmDrainF_congr f1 _ f2 (by omega) (by omega)]

/-- One-step unfolding of the extraction loop. -/
theorem rtcmDrain_eq (buf : List Nat) :
    rtcmDrain buf =
      if buf.length < 3 then ([], buf)
      else if buf.getD 0 0 = 0xD3 then
        if buf.length < 6 then ([], buf)
        else if buf.length < (((buf.getD 1 0 &&& 0x03) <<< 8) ||| buf.getD 2 0) + 6 then
          ([], buf)
        else
          ((⟨(buf.getD 3 0 <<< 4) ||| (buf.getD 4 0 >>> 4),
             ((buf.getD 1 0 &&& 0x03) <<< 8) ||| buf.getD 2 0,
             (buf.drop 3).take (((buf.getD 1 0 &&& 0x03) <<< 8) ||| buf.getD 2 0),
             true⟩ : RTCMMessage) ::
             (rtcmDrain (buf.drop ((((buf.getD 1 0 &&& 0x03) <<< 8) ||| buf.getD 2 0) + 6))).1,
           (rtcmDrain (buf.drop ((((buf.getD 1 0 &&& 0x03) <<< 8) ||| buf.getD 2 0) + 6))).2)
      else rtcmDrain (buf.drop 1) := by
  unfold rtcmDrain
  cases hn : buf.length with
  | zero =>
    have hb : buf = [] := List.length_eq_zero.mp hn
    subst hb; simp [rtcmDrainF]
  | succ n =>
    simp only [rtcmDrainF]
    by_cases h3 : buf.length < 3
    · rw [hn]; simp only [if_pos (hn ▸ h3)]
    · rw [hn]; simp only [if_neg (hn ▸ h3)]
      by_cases hd : buf.getD 0 0 = 0xD3
      · simp only [if_pos hd]
        by_cases h6 : buf.length < 6
        · simp only [if_pos (hn ▸ h6)]
        · simp only [if_neg (hn ▸ h6)]
          by_cases ht : buf.length < (((buf.getD 1 0 &&& 0x03) <<< 8) ||| buf.getD 2 0) + 6
          · simp only [if_pos (hn ▸ ht)]
          · simp only [if_neg (hn ▸ ht)]
            rw [rtcmDrainF_congr n _ (buf.drop _).length
              (by rw [List.length_drop]; omega) (Nat.le_refl _)]
      · simp only [if_neg hd]
        rw [rtcmDrainF_congr n _ (buf.drop 1).length
          (by rw [List.length_drop]; omega) (Nat.le_refl _)]

/-- A buffer on which the loop is blocked absorbs later data without
losing anything: the trivial case of the chunk-invariance argument. -/
theorem rtcmDrain_append_blocked (b d : List Nat) (hb : rtcmDrain b = ([], b)) :
    rtcmDrain (b ++ d) =
      ((rtcmDrain b).1 ++ (rtcmDrain ((rtcmDrain b).2 ++ d)).1,
       (rtcmDrain ((rtcmDrain b).2 ++ d)).2) := by
  rw [hb]; simp

/-- Chunk invariance for the RTCM loop: draining `b ++ d` emits the
messages of `b` followed by the messages obtained by draining the
leftover of `b` extended with `d`. -/
theorem rtcmDrain_append (b d : List Nat) :
    rtcmDrain (b ++ d) =
      ((rtcmDrain b).1 ++ (rtcmDrain ((rtcmDrain b).2 ++ d)).1,
       (rtcmDrain ((rtcmDrain b).2 ++ d)).2) := by
  by_cases h3 : b.length < 3
  · exact rtcmDrain_append_blocked b d (by rw [rtcmDrain_eq]; simp [if_pos h3])
  · by_cases hd : b.getD 0 0 = 0xD3
    · by_cases h6 : b.length < 6
      · exact rtcmDrain_append_blocked b d
          (by rw [rtcmDrain_eq]; simp only [if_neg h3, if_pos hd, if_pos h6])
      · by_cases ht : b.length < (((b.getD 1 0 &&& 0x03) <<< 8) ||| b.getD 2 0) + 6
        · exact rtcmDrain_append_blocked b d
            (by rw [rtcmDrain_eq]; simp only [if_neg h3, if_pos hd, if_neg h6, if_pos ht])
        · -- a complete frame sits at the head of `b`; both sides emit it
          have hlen0 : 0 < b.length := by omega
          have hg0 : (b ++ d).getD 0 0 = b.getD 0 0 := List.getD_append _ _ _ _ hlen0
          have hg1 : (b ++ d).getD 1 0 = b.getD 1 0 := List.getD_append _ _ _ _ (by omega)
          have hg2 : (b ++ d).getD 2 0 = b.getD 2 0 := List.getD_append _ _ _ _ (by omega)
          have hg3 : (b ++ d).getD 3 0 = b.getD 3 0 := List.getD_append _ _ _ _ (by omega)
          have hg4 : (b ++ d).getD 4 0 = b.getD 4 0 := List.getD_append _ _ _ _ (by omega)
          have hlab : (b ++ d).length = b.length + d.length := List.length_append b d
          rw [rtcmDrain_eq (b ++ d), rtcmDrain_eq b]
          simp only [hg0, hg1, hg2, hg3, hg4, hlab]
          rw [if_neg (by omega), if_pos hd, if_neg (by omega : ¬ b.length + d.length < 6),
            if_neg h3, if_pos hd, if_neg h6,
            if_neg (by omega : ¬ b.length + d.length <
              (((b.getD 1 0 &&& 0x03) <<< 8) ||| b.getD 2 0) + 6),
            if_neg ht]
          have hdr3 : (b ++ d).drop 3 = b.drop 3 ++ d :=
            List.drop_append_of_le_length (by omega)
          have htk : (b.drop 3 ++ d).take (((b.getD 1 0 &&& 0x03) <<< 8) ||| b.getD 2 0)
              = (b.drop 3).take (((b.getD 1 0 &&& 0x03) <<< 8) ||| b.getD 2 0) :=
            List.take_append_of_le_length (by rw [List.length_drop]; omega)
          have hdrT : (b ++ d).drop ((((b.getD 1 0 &&& 0x03) <<< 8) ||| b.getD 2 0) + 6)
              = b.drop ((((b.getD 1 0 &&& 0x03) <<< 8) ||| b.getD 2 0) + 6) ++ d :=
            List.drop_append_of_le_length (by omega)
          rw [hdr3, htk, hdrT,
            rtcmDrain_append (b.drop ((((b.getD 1 0 &&& 0x03) <<< 8) ||| b.getD 2 0) + 6)) d]
          simp
    · -- resynchronization: both sides skip the unrecognized head byte
      have hlen0 : 0 < b.length := by omega
      have hg0 : (b ++ d).getD 0 0 = b.getD 0 0 := List.getD_append _ _ _ _ hlen0
      have hstep : rtcmDrain (b ++ d) = rtcmDrain (b.drop 1 ++ d) := by
        rw [rtcmDrain_eq (b ++ d), if_neg (by rw [List.length_append]; omega),
          hg0, if_neg hd, List.drop_append_of_le_length (by omega)]
      have hstepb : rtcmDrain b = rtcmDrain (b.drop 1) := by
        rw [rtcmDrain_eq b, if_neg h3, if_neg hd]
      rw [hstep, hstepb, rtcmDrain_append (b.drop 1) d]
termination_by b.length
decreasing_by
  · rw [List.length_drop]; omega
  · rw [List.length_drop]; omega

/-! ## Chunk-invariance infrastructure for the UBX parser -/

theorem ubxDrainF_nil (f : Nat) : ubxDrainF f [] = ([], []) := by
  cases f <;> simp [ubxDrainF]

/-- Fuel irrelevance for the UBX loop. -/
theorem ubxDrainF_congr : ∀ (f1 : Nat) (buf : List Nat) (f2 : Nat),
    buf.length ≤ f1 → buf.length ≤ f2 → ubxDrainF f1 buf = ubxDrainF f2 buf
  | 0, buf, f2, h1, _ => by
    have hb : buf = [] := List.length_eq_zero.mp (Nat.le_zero.mp h1)
    subst hb; rw [ubxDrainF_nil, ubxDrainF_nil]
  | _ + 1, buf, 0, _, h2 => by
    have hb : buf = [] := List.length_eq_zero.mp (Nat.le_zero.mp h2)
    subst hb; rw [ubxDrainF_nil, ubxDrainF_nil]
  | f1 + 1, buf, f2 + 1, h1, h2 => by
    simp only [ubxDrainF]
    by_cases h6 : buf.length < 6
    · simp only [if_pos h6]
    · simp only [if_neg h6]
      by_cases hd : buf.getD 0 0 = 0xB5 ∧ buf.getD 1 0 = 0x62
      · simp only [if_pos hd]
        by_cases ht : buf.length < (buf.getD 4 0 ||| (buf.getD 5 0 <<< 8)) + 8
        · simp only [if_pos ht]
        · simp only [if_neg ht]
          rw [ubxDrainF_congr f1 _ f2
            (by rw [List.length_drop]; omega) (by rw [List.length_drop]; omega)]
      · simp only [if_neg hd]
        rw [ubxDrainF_congr f1 _ f2
          (by rw [List.length_drop]; omega) (by rw [List.length_drop]; omega)]

/-- One-step unfolding of the UBX extraction loop. -/
theorem ubxDrain_eq (buf : List Nat) :
    ubxDrain buf =
      if buf.length < 6 then ([], buf)
      else if buf.getD 0 0 = 0xB5 ∧ buf.getD 1 0 = 0x62 then
        if buf.length < (buf.getD 4 0 ||| (buf.getD 5 0 <<< 8)) + 8 then ([], buf)
        else
          ((⟨buf.getD 2 0, buf.getD 3 0,
             buf.getD 4 0 ||| (buf.getD 5 0 <<< 8),
             (buf.drop 6).take (buf.getD 4 0 ||| (buf.getD 5 0 <<< 8)),
             true⟩ : UBXMessage) ::
             (ubxDrain (buf.drop ((buf.getD 4 0 ||| (buf.getD 5 0 <<< 8)) + 8))).1,
           (ubxDrain (buf.drop ((buf.getD 4 0 ||| (buf.getD 5 0 <<< 8)) + 8))).2)
      else ubxDrain (buf.drop 1) := by
  unfold ubxDrain
  cases hn : buf.length with
  | zero =>
    have hb : buf = [] := List.length_eq_zero.mp hn
    subst hb; simp [ubxDrainF]
  | succ n =>
    simp only [ubxDrainF]
    by_cases h6 : buf.length < 6
    · rw [hn]; simp only [if_pos (hn ▸ h6)]
    · rw [hn]; simp only [if_neg (hn ▸ h6)]
      by_cases hd : buf.getD 0 0 = 0xB5 ∧ buf.getD 1 0 = 0x62
      · simp only [if_pos hd]
        by_cases ht : buf.length < (buf.getD 4 0 ||| (buf.getD 5 0 <<< 8)) + 8
        · simp only [if_pos (hn ▸ ht)]
        · simp only [if_neg (hn ▸ ht)]
          rw [ubxDrainF_congr n _ (buf.drop _).length
            (by rw [List.length_drop]; omega) (Nat.le_refl _)]
      · simp only [if_neg hd]
        rw [ubxDrainF_congr n _ (buf.drop 1).length
          (by rw [List.length_drop]; omega) (Nat.le_refl _)]

theorem ubxDrain_append_blocked (b d : List Nat) (hb : ubxDrain b = ([], b)) :
    ubxDrain (b ++ d) =
      ((ubxDrain b).1 ++ (ubxDrain ((ubxDrain b).2 ++ d)).1,
       (ubxDrain ((ubxDrain b).2 ++ d)).2) := by
  rw [hb]; simp

/-- Chunk invariance for the UBX loop. -/
theorem ubxDrain_append (b d : List Nat) :
    ubxDrain (b ++ d) =
      ((ubxDrain b).1 ++ (ubxDrain ((ubxDrain b).2 ++ d)).1,
       (ubxDrain ((ubxDrain b).2 ++ d)).2) := by
  by_cases h6 : b.length < 6
  · exact ubxDrain_append_blocked b d (by rw [ubxDrain_eq]; simp [if_pos h6])
  · have hg0 : (b ++ d).getD 0 0 = b.getD 0 0 := List.getD_append _ _ _ _ (by omega)
    have hg1 : (b ++ d).getD 1 0 = b.getD 1 0 := List.getD_append _ _ _ _ (by omega)
    by_cases hd : b.getD 0 0 = 0xB5 ∧ b.getD 1 0 = 0x62
    · by_cases ht : b.length < (b.getD 4 0 ||| (b.getD 5 0 <<< 8)) + 8
      · exact ubxDrain_append_blocked b d
          (by rw [ubxDrain_eq]; simp only [if_neg h6, if_pos hd, if_pos ht])
      · have hg2 : (b ++ d).getD 2 0 = b.getD 2 0 := List.getD_append _ _ _ _ (by omega)
        have hg3 : (b ++ d).getD 3 0 = b.getD 3 0 := List.getD_append _ _ _ _ (by omega)
        have hg4 : (b ++ d).getD 4 0 = b.getD 4 0 := List.getD_append _ _ _ _ (by omega)
        have hg5 : (b ++ d).getD 5 0 = b.getD 5 0 := List.getD_append _ _ _ _ (by omega)
        have hlab : (b ++ d).length = b.length + d.length := List.length_append b d
        rw [ubxDrain_eq (b ++ d), ubxDrain_eq b]
        simp only [hg0, hg1, hg2, hg3, hg4, hg5, hlab]
        rw [if_neg (by omega : ¬ b.length + d.length < 6), if_pos hd,
          if_neg (by omega : ¬ b.length + d.length <
            (b.getD 4 0 ||| (b.getD 5 0 <<< 8)) + 8),
          if_neg h6, if_pos hd, if_neg ht]
        have hdr6 : (b ++ d).drop 6 = b.drop 6 ++ d :=
          List.drop_append_of_le_length (by omega)
        have htk : (b.drop 6 ++ d).take (b.getD 4 0 ||| (b.getD 5 0 <<< 8))
            = (b.drop 6).take (b.getD 4 0 ||| (b.getD 5 0 <<< 8)) :=
          List.take_append_of_le_length (by rw [List.length_drop]; omega)
        have hdrT : (b ++ d).drop ((b.getD 4 0 ||| (b.getD 5 0 <<< 8)) + 8)
            = b.drop ((b.getD 4 0 ||| (b.getD 5 0 <<< 8)) + 8) ++ d :=
          List.drop_append_of_le_length (by omega)
        rw [hdr6, htk, hdrT,
          ubxDrain_append (b.drop ((b.getD 4 0 ||| (b.getD 5 0 <<< 8)) + 8)) d]
        simp
    · have hstep : ubxDrain (b ++ d) = ubxDrain (b.drop 1 ++ d) := by
        rw [ubxDrain_eq (b ++ d), if_neg (by rw [List.length_append]; omega)]
        rw [hg0, hg1] at *
        rw [if_neg (by rw [hg0, hg1]; exact hd),
          List.drop_append_of_le_length (by omega)]
      have hstepb : ubxDrain b = ubxDrain (b.drop 1) := by
        rw [ubxDrain_eq b, if_neg h6, if_neg hd]
      rw [hstep, hstepb, ubxDrain_append (b.drop 1) d]
termination_by b.length
decreasing_by
  · rw [List.length_drop]; omega
  · rw [List.length_drop]; omega

/-- Feeding a nonempty list of chunks through successive `Process`
calls is the same as one `Process` call on their concatenation. -/
theorem rtcmProcessChunks_cons (buffer : List Nat) (c : List Nat) (cs : List (List Nat)) :
    rtcmProcessChunks buffer (c :: cs) = rtcmDrain (buffer ++ (c :: cs).flatten) := by
  induction cs generalizing buffer c with
  | nil => simp [rtcmProcessChunks, rtcmProcess]
  | cons c' cs' ih =>
    rw [rtcmProcessChunks]
    rw [ih (rtcmProcess buffer c).2 c']
    have : buffer ++ (c :: c' :: cs').flatten = (buffer ++ c) ++ (c' :: cs').flatten := by
      simp
    rw [this, rtcmDrain_append (buffer ++ c) (c' :: cs').flatten]
    rfl

/-- UBX analogue of `rtcmProcessChunks_cons`. -/
theorem ubxProcessChunks_cons (buffer : List Nat) (c : List Nat) (cs : List (List Nat)) :
    ubxProcessChunks buffer (c :: cs) = ubxDrain (buffer ++ (c :: cs).flatten) := by
  induction cs generalizing buffer c with
  | nil => simp [ubxProcessChunks, ubxProcess]
  | cons c' cs' ih =>
    rw [ubxProcessChunks]
    rw [ih (ubxProcess buffer c).2 c']
    have : buffer ++ (c :: c' :: cs').flatten = (buffer ++ c) ++ (c' :: cs').flatten := by
      simp
    rw [this, ubxDrain_append (buffer ++ c) (c' :: cs').flatten]
    rfl

/-- Claim C2: chunk invariance.  For every byte sequence and every way
of splitting it into consecutive sub-chunks, feeding the sub-chunks to
a fresh parser through successive `Process` calls yields the same
ordered message sequence (and the same retained buffer) as feeding the
whole sequence in a single `Process` call — for both the RTCM parser
and the UBX parser. -/
theorem process_chunk_invariance (chunks : List (List Nat)) :
    (rtcmProcessChunks [] chunks).1 = (rtcmProcess [] chunks.flatten).1 ∧
    (ubxProcessChunks [] chunks).1 = (ubxProcess [] chunks.flatten).1 := by
  cases chunks with
  | nil => constructor <;> rfl
  | cons c cs =>
    constructor
    · rw [rtcmProcessChunks_cons]; rfl
    · rw [ubxProcessChunks_cons]; rfl

/-! ## Position averager (`internal/position/averager.go`)

Go `float64` values are embedded as exact rationals, `time.Time`
timestamps as rationals (seconds), and the Go map `map[int]int` as an
association list read with a zero default (Go map semantics).  The
`math.Sqrt` in the standard-deviation computation has no exact rational
counterpart, so the stats record stores the radicand
(`sumSqDiff / N`, the population variance) in the `...StdDevSq`
fields: the source stores `math.Sqrt` of exactly these values, and
square root is injective on nonnegatives. -/

/-- `PositionSample` from `internal/position/averager.go`. -/
structure PositionSample where
  latitude : ℚ
  longitude : ℚ
  altitude : ℚ
  fixQuality : Int
  timestamp : ℚ
deriving Repr, DecidableEq

/-- `Position` from `internal/position/position.go`.  The wall-clock
`Timestamp` field (populated with `time.Now()` data) is omitted; the
`Stats` pointer is carried separately where needed. -/
structure Position where
  latitude : ℚ
  longitude : ℚ
  altitude : ℚ
  fixQuality : Int
  satellites : Int
  hdop : ℚ
  description : String
deriving Repr, DecidableEq

/-- `PositionStats` from `internal/position/averager.go` (std-dev fields
store the radicand of the source's `math.Sqrt`, see section comment). -/
structure PositionStats where
  sampleCount : Nat
  duration : ℚ
  latitudeStdDevSq : ℚ
  longitudeStdDevSq : ℚ
  altitudeStdDevSq : ℚ
  startTime : ℚ
  endTime : ℚ
  fixQualityDistribution : List (Int × Int)
deriving Repr, DecidableEq

/-- Go map read `m[k]` with an `int` value type: missing keys read 0. -/
def histGet : List (Int × Int) → Int → Int
  | [], _ => 0
  | (k1, v) :: t, k => if k1 = k then v else histGet t k

/-- Go map write `m[k] = v`: update in place or add a new entry. -/
def histSet : List (Int × Int) → Int → Int → List (Int × Int)
  | [], k, v => [(k, v)]
  | (k1, v1) :: t, k, v => if k1 = k then (k, v) :: t else (k1, v1) :: histSet t k v

/-- `PositionAverager` from `internal/position/averager.go` (the mutex
and the unused `startTime` field are omitted: all operations are
embedded as atomic state transformers). -/
structure PositionAverager where
  samples : List PositionSample
  minFixQuality : Int
  fixQualityDist : List (Int × Int)
deriving Repr, DecidableEq

/-- `NewPositionAverager`. -/
def NewPositionAverager (minFixQuality : Int) : PositionAverager :=
  { samples := [], minFixQuality := minFixQuality, fixQualityDist := [] }

/-- `PositionAverager.AddSample`: always bumps the fix-quality
histogram, then appends the sample only when its fix quality reaches
the configured minimum.  Returns the `bool` result and the updated
averager state. -/
def AddSample (a : PositionAverager) (sample : PositionSample) : Bool × PositionAverager :=
  let newDist :=
    histSet a.fixQualityDist sample.fixQuality
      (histGet a.fixQualityDist sample.fixQuality + 1)
  let a1 : PositionAverager := { a with fixQualityDist := newDist }
  if sample.fixQuality < a.minFixQuality then (false, a1)
  else (true, { a1 with samples := a1.samples ++ [sample] })

/-- `PositionAverager.GetSampleCount`. -/
def GetSampleCount (a : PositionAverager) : Nat :=
  a.samples.length

/-- `PositionAverager.GetAveragedPosition`.  The source's single loop
initializes `minTime`/`maxTime` at `i == 0` with the first timestamp
and then folds `Before`/`After` comparisons; that loop is exactly a
`min`/`max` fold seeded with the head timestamp (the redundant `i = 0`
step is `min t t = t`).  Returns `error` (Go: `nil, nil, err`) on an
empty sample set. -/
def GetAveragedPosition (a : PositionAverager) :
    Except String (Position × PositionStats) :=
  if a.samples = [] then .error "no samples collected"
  else
    let n : ℚ := (a.samples.length : ℚ)
    let sumLat := (a.samples.map (fun s => s.latitude)).sum
    let sumLon := (a.samples.map (fun s => s.longitude)).sum
    let sumAlt := (a.samples.map (fun s => s.altitude)).sum
    let ts := a.samples.map (fun s => s.timestamp)
    let minTime := ts.foldl min (ts.headD 0)
    let maxTime := ts.foldl max (ts.headD 0)
    let avgLat := sumLat / n
    let avgLon := sumLon / n
    let avgAlt := sumAlt / n
    let sumSqDiffLat := (a.samples.map (fun s => (s.latitude - avgLat) ^ 2)).sum
    let sumSqDiffLon := (a.samples.map (fun s => (s.longitude - avgLon) ^ 2)).sum
    let sumSqDiffAlt := (a.samples.map (fun s => (s.altitude - avgAlt) ^ 2)).sum
    .ok
      ({ latitude := avgLat
         longitude := avgLon
         altitude := avgAlt
         fixQuality := a.minFixQuality
         satellites := 0
         hdop := 0
         description := "Averaged position from " ++ toString a.samples.length ++ " samples" },
       { sampleCount := a.samples.length
         duration := maxTime - minTime
         latitudeStdDevSq := sumSqDiffLat / n
         longitudeStdDevSq := sumSqDiffLon / n
         altitudeStdDevSq := sumSqDiffAlt / n
         startTime := minTime
         endTime := maxTime
         fixQualityDistribution := a.fixQualityDist })

/-! ### Fold facts for the timestamp extrema -/

theorem foldl_min_le (ts : List ℚ) (init : ℚ) :
    ts.foldl min init ≤ init ∧ ∀ t ∈ ts, ts.foldl min init ≤ t := by
  induction ts generalizing init with
  | nil => simp
  | cons c t ih =>
    obtain ⟨h1, h2⟩ := ih (min init c)
    constructor
    · exact le_trans h1 (min_le_left _ _)
    · intro x hx
      rcases List.mem_cons.mp hx with hx | hx
      · subst hx; exact le_trans h1 (min_le_right _ _)
      · exact h2 x hx

theorem foldl_min_mem (ts : List ℚ) (init : ℚ) :
    ts.foldl min init = init ∨ ts.foldl min init ∈ ts := by
  induction ts generalizing init with
  | nil => left; rfl
  | cons c t ih =>
    rcases ih (min init c) with h | h
    · rcases min_choice init c with hm | hm
      · left; rw [List.foldl_cons, h, hm]
      · right; rw [List.foldl_cons, h, hm]; exact List.mem_cons_self _ _
    · right; exact List.mem_cons_of_mem _ h

theorem foldl_max_ge (ts : List ℚ) (init : ℚ) :
    init ≤ ts.foldl max init ∧ ∀ t ∈ ts, t ≤ ts.foldl max init := by
  induction ts generalizing init with
  | nil => simp
  | cons c t ih =>
    obtain ⟨h1, h2⟩ := ih (max init c)
    constructor
    · exact le_trans (le_max_left _ _) h1
    · intro x hx
      rcases List.mem_cons.mp hx with hx | hx
      · subst hx; exact le_trans (le_max_right _ _) h1
      · exact h2 x hx

theorem foldl_max_mem (ts : List ℚ) (init : ℚ) :
    ts.foldl max init = init ∨ ts.foldl max init ∈ ts := by
  induction ts generalizing init with
  | nil => left; rfl
  | cons c t ih =>
    rcases ih (max init c) with h | h
    · rcases max_choice init c with hm | hm
      · left; rw [List.foldl_cons, h, hm]
      · right; rw [List.foldl_cons, h, hm]; exact List.mem_cons_self _ _
    · right; exact List.mem_cons_of_mem _ h

/-- The three-sample spec example: threshold 4, samples at fix
qualities 4, 4, 5 (all at or above the threshold), timestamps 0, 1, 2
seconds, added through `AddSample` to a fresh averager. -/
def sampleEx1 : PositionSample := ⟨51.5074, -0.1278, 45, 4, 0⟩

def sampleEx2 : PositionSample := ⟨51.5076, -0.1276, 46, 4, 1⟩

def sampleEx3 : PositionSample := ⟨51.5078, -0.1274, 47, 5, 2⟩

def averagerExample : PositionAverager :=
  (AddSample (AddSample (AddSample (NewPositionAverager 4) sampleEx1).2 sampleEx2).2 sampleEx3).2

theorem headD_mem {α : Type} (l : List α) (d : α) (h : l ≠ []) : l.headD d ∈ l := by
  cases l with
  | nil => exact absurd rfl h
  | cons c t => simp [List.headD]

theorem histGet_histSet (h : List (Int × Int)) (k v : Int) :
    histGet (histSet h k v) k = v := by
  induction h with
  | nil => simp [histGet, histSet]
  | cons p t ih =>
    obtain ⟨k1, v1⟩ := p
    by_cases hk : k1 = k
    · subst hk; simp [histSet, histGet]
    · simp [histSet, histGet, hk, ih]

set_option maxHeartbeats 1600000 in
/-- General characterization of `GetAveragedPosition` on a non-empty
sample set: means, population variances (divide by `N`), and
order-independent min/max timestamp extrema. -/
theorem getAveragedPosition_characterization (a : PositionAverager) (h : a.samples ≠ []) :
    ∃ pos stats, GetAveragedPosition a = .ok (pos, stats) ∧
      pos.latitude = (a.samples.map (fun s => s.latitude)).sum / (a.samples.length : ℚ) ∧
      pos.longitude = (a.samples.map (fun s => s.longitude)).sum / (a.samples.length : ℚ) ∧
      pos.altitude = (a.samples.map (fun s => s.altitude)).sum / (a.samples.length : ℚ) ∧
      stats.sampleCount = a.samples.length ∧
      stats.latitudeStdDevSq
        = (a.samples.map (fun s => (s.latitude - pos.latitude) ^ 2)).sum
            / (a.samples.length : ℚ) ∧
      stats.longitudeStdDevSq
        = (a.samples.map (fun s => (s.longitude - pos.longitude) ^ 2)).sum
            / (a.samples.length : ℚ) ∧
      stats.altitudeStdDevSq
        = (a.samples.map (fun s => (s.altitude - pos.altitude) ^ 2)).sum
            / (a.samples.length : ℚ) ∧
      stats.startTime ∈ a.samples.map (fun s => s.timestamp) ∧
      (∀ t ∈ a.samples.map (fun s => s.timestamp), stats.startTime ≤ t) ∧
      stats.endTime ∈ a.samples.map (fun s => s.timestamp) ∧
      (∀ t ∈ a.samples.map (fun s => s.timestamp), t ≤ stats.endTime) ∧
      stats.duration = stats.endTime - stats.startTime := by
  have hts : a.samples.map (fun s => s.timestamp) ≠ [] := by simpa using h
  unfold GetAveragedPosition
  rw [if_neg h]
  refine ⟨_, _, rfl, rfl, rfl, rfl, rfl, rfl, rfl, rfl, ?_, ?_, ?_, ?_, rfl⟩
  · show (a.samples.map (fun s => s.timestamp)).foldl min
        ((a.samples.map (fun s => s.timestamp)).headD 0)
        ∈ a.samples.map (fun s => s.timestamp)
    rcases foldl_min_mem (a.samples.map (fun s => s.timestamp))
        ((a.samples.map (fun s => s.timestamp)).headD 0) with hm | hm
    · rw [hm]; exact headD_mem _ _ hts
    · exact hm
  · intro t ht
    exact (foldl_min_le (a.samples.map (fun s => s.timestamp))
      ((a.samples.map (fun s => s.timestamp)).headD 0)).2 t ht
  · show (a.samples.map (fun s => s.timestamp)).foldl max
        ((a.samples.map (fun s => s.timestamp)).headD 0)
        ∈ a.samples.map (fun s => s.timestamp)
    rcases foldl_max_mem (a.samples.map (fun s => s.timestamp))
        ((a.samples.map (fun s => s.timestamp)).headD 0) with hm | hm
    · rw [hm]; exact headD_mem _ _ hts
    · exact hm
  · intro t ht
    exact (foldl_max_ge (a.samples.map (fun s => s.timestamp))
      ((a.samples.map (fun s => s.timestamp)).headD 0)).2 t ht

theorem averagerExample_samples :
    averagerExample.samples = [sampleEx1, sampleEx2, sampleEx3] := rfl

/-- Claim C3: on a non-empty accepted-sample set `GetAveragedPosition`
returns the arithmetic mean of latitude, longitude and altitude, the
per-axis population variance (divide by `N`, not `N - 1`; the source
stores its square root as the standard deviation), and start/end times
and a duration given by the minimum and maximum of the samples' own
timestamps regardless of arrival order; the spec's three-sample example
yields mean latitude 51.5076, longitude -0.1276, altitude 46 and sample
count 3. -/
theorem GetAveragedPosition_spec :
    (∀ a : PositionAverager, a.samples ≠ [] →
      ∃ pos stats, GetAveragedPosition a = .ok (pos, stats) ∧
        pos.latitude = (a.samples.map (fun s => s.latitude)).sum / (a.samples.length : ℚ) ∧
        pos.longitude = (a.samples.map (fun s => s.longitude)).sum / (a.samples.length : ℚ) ∧
        pos.altitude = (a.samples.map (fun s => s.altitude)).sum / (a.samples.length : ℚ) ∧
        stats.sampleCount = a.samples.length ∧
        stats.latitudeStdDevSq
          = (a.samples.map (fun s => (s.latitude - pos.latitude) ^ 2)).sum
              / (a.samples.length : ℚ) ∧
        stats.longitudeStdDevSq
          = (a.samples.map (fun s => (s.longitude - pos.longitude) ^ 2)).sum
              / (a.samples.length : ℚ) ∧
        stats.altitudeStdDevSq
          = (a.samples.map (fun s => (s.altitude - pos.altitude) ^ 2)).sum
              / (a.samples.length : ℚ) ∧
        stats.startTime ∈ a.samples.map (fun s => s.timestamp) ∧
        (∀ t ∈ a.samples.map (fun s => s.timestamp), stats.startTime ≤ t) ∧
        stats.endTime ∈ a.samples.map (fun s => s.timestamp) ∧
        (∀ t ∈ a.samples.map (fun s => s.timestamp), t ≤ stats.endTime) ∧
        stats.duration = stats.endTime - stats.startTime) ∧
    (∃ pos stats, GetAveragedPosition averagerExample = .ok (pos, stats) ∧
      pos.latitude = 51.5076 ∧ pos.longitude = -0.1276 ∧ pos.altitude = 46 ∧
      stats.sampleCount = 3) := by
  constructor
  · exact getAveragedPosition_characterization
  · obtain ⟨pos, stats, heq, hlat, hlon, halt, hcount, hrest⟩ :=
      getAveragedPosition_characterization averagerExample (by rw [averagerExample_samples]; simp)
    refine ⟨pos, stats, heq, ?_, ?_, ?_, ?_⟩
    · rw [hlat, averagerExample_samples]
      simp [sampleEx1, sampleEx2, sampleEx3]
      norm_num
    · rw [hlon, averagerExample_samples]
      simp [sampleEx1, sampleEx2, sampleEx3]
      norm_num
    · rw [halt, averagerExample_samples]
      simp [sampleEx1, sampleEx2, sampleEx3]
      norm_num
    · rw [hcount, averagerExample_samples]
      rfl

/-- Witness for C3: the non-emptiness hypothesis discharged at the
spec's three-sample example. -/
theorem GetAveragedPosition_spec_witness :
    averagerExample.samples ≠ [] ∧
    (∃ pos stats, GetAveragedPosition averagerExample = .ok (pos, stats) ∧
      pos.latitude
        = (averagerExample.samples.map (fun s => s.latitude)).sum
            / (averagerExample.samples.length : ℚ)) := by
  have hne : averagerExample.samples ≠ [] := by
    rw [averagerExample_samples]; simp
  refine ⟨hne, ?_⟩
  obtain ⟨pos, stats, h1, h2, hrest⟩ :=
    GetAveragedPosition_spec.1 averagerExample hne
  exact ⟨pos, stats, h1, h2⟩

/-- Claim C4: `GetAveragedPosition` on an empty accepted-sample set is
the explicit "no samples" failure (Go returns `nil, nil, err`; the
embedding returns `Except.error`, so no position value is produced).
The Go method mutates nothing — it is embedded as a pure query, so the
averager state is unchanged by construction. -/
theorem GetAveragedPosition_empty (a : PositionAverager) (h : a.samples = []) :
    GetAveragedPosition a = .error "no samples collected" := by
  unfold GetAveragedPosition
  rw [if_pos h]

/-- Witness for C4: a freshly constructed averager has no samples. -/
theorem GetAveragedPosition_empty_witness :
    GetAveragedPosition (NewPositionAverager 4) = .error "no samples collected" :=
  GetAveragedPosition_empty (NewPositionAverager 4) rfl

/-- Claim C5: `AddSample` always increments the histogram entry for the
sample's fix quality; it appends the sample and returns `true` exactly
when the fix quality reaches the threshold, and otherwise returns
`false` leaving the sample set and `GetSampleCount` unchanged. -/
theorem AddSample_spec (a : PositionAverager) (s : PositionSample) :
    histGet (AddSample a s).2.fixQualityDist s.fixQuality
        = histGet a.fixQualityDist s.fixQuality + 1 ∧
    ((AddSample a s).1 = true ↔ a.minFixQuality ≤ s.fixQuality) ∧
    (a.minFixQuality ≤ s.fixQuality → (AddSample a s).2.samples = a.samples ++ [s]) ∧
    (s.fixQuality < a.minFixQuality →
      (AddSample a s).2.samples = a.samples ∧
      GetSampleCount (AddSample a s).2 = GetSampleCount a) := by
  by_cases hq : s.fixQuality < a.minFixQuality
  · have hres : AddSample a s =
        (false, { a with fixQualityDist := histSet a.fixQualityDist s.fixQuality (histGet a.fixQualityDist s.fixQuality + 1) }) := by
      simp only [AddSample]
      rw [if_pos hq]
    rw [hres]
    refine ⟨histGet_histSet _ _ _, ?_, ?_, ?_⟩
    · exact iff_of_false (by simp) (not_le.mpr hq)
    · intro hle
      exact absurd hle (not_le.mpr hq)
    · intro _
      exact ⟨rfl, rfl⟩
  · have hres : AddSample a s =
        (true, { a with samples := a.samples ++ [s], fixQualityDist := histSet a.fixQualityDist s.fixQuality (histGet a.fixQualityDist s.fixQuality + 1) }) := by
      simp only [AddSample]
      rw [if_neg hq]
    rw [hres]
    refine ⟨histGet_histSet _ _ _, ?_, ?_, ?_⟩
    · exact iff_of_true rfl (not_lt.mp hq)
    · intro _
      rfl
    · intro hlt
      exact absurd hlt hq

/-- Witness for C5: a below-threshold sample (fix quality 3 against
threshold 4) is histogrammed but rejected; an at-threshold sample (fix
quality 4) is appended and accepted. -/
theorem AddSample_spec_witness :
    (AddSample (NewPositionAverager 4) ⟨51.5074, -0.1278, 45, 3, 0⟩).1 = false ∧
    (AddSample (NewPositionAverager 4) ⟨51.5074, -0.1278, 45, 3, 0⟩).2.samples = [] ∧
    histGet (AddSample (NewPositionAverager 4) ⟨51.5074, -0.1278, 45, 3, 0⟩).2.fixQualityDist 3
      = 1 ∧
    (AddSample (NewPositionAverager 4) sampleEx1).1 = true ∧
    (AddSample (NewPositionAverager 4) sampleEx1).2.samples = [sampleEx1] := by
  have hlow := AddSample_spec (NewPositionAverager 4) ⟨51.5074, -0.1278, 45, 3, 0⟩
  have hok := AddSample_spec (NewPositionAverager 4) sampleEx1
  refine ⟨?_, ?_, ?_, ?_, ?_⟩
  · cases hb : (AddSample (NewPositionAverager 4) ⟨51.5074, -0.1278, 45, 3, 0⟩).1 with
    | false => rfl
    | true => exact absurd (hlow.2.1.mp hb) (by decide)
  · exact (hlow.2.2.2 (by decide)).1
  · exact hlow.1
  · exact hok.2.1.mpr (by decide)
  · rw [hok.2.2.1 (by decide)]; rfl

/-! ## Defensive copy of the fix-quality histogram (claim C6)

`GetFixQualityDistribution` allocates a fresh Go map, copies every
entry of the internal histogram into it, and returns the fresh map.
Go maps are reference values, so whether a caller can corrupt the
averager's internal state by mutating the returned map is a question
about map references; the embedding makes the reference structure
explicit.  A heap is a list of histogram values, a map reference is an
index into it, allocation appends at the end, and a map write mutates
the referenced cell in place. -/

/-- A heap of Go `map[int]int` values; references are indices. -/
abbrev Heap : Type := List (List (Int × Int))

/-- Dereference `r` (reading an unallocated reference gives the empty map). -/
def heapRead (hp : Heap) (r : Nat) : List (Int × Int) :=
  hp.getD r []

/-- In-place map write `m[k] = v` through reference `r`. -/
def heapWrite (hp : Heap) (r : Nat) (k v : Int) : Heap :=
  hp.set r (histSet (heapRead hp r) k v)

/-- A sequence of map writes through reference `r`. -/
def heapWrites (hp : Heap) (r : Nat) : List (Int × Int) → Heap
  | [] => hp
  | (k, v) :: ws => heapWrites (heapWrite hp r k v) r ws

/-- The copy loop of `GetFixQualityDistribution`:
`dist := make(map[int]int); for k, v := range src { dist[k] = v }`. -/
def copyHist (src : List (Int × Int)) : List (Int × Int) :=
  src.foldl (fun dist kv => histSet dist kv.1 kv.2) []

/-- `PositionAverager.GetFixQualityDistribution`, with the averager's
internal histogram living at reference `distRef` in the heap: allocate
a fresh map, copy the histogram into it, return the new heap and the
fresh reference. -/
def GetFixQualityDistribution (hp : Heap) (distRef : Nat) : Heap × Nat :=
  (hp ++ [copyHist (heapRead hp distRef)], hp.length)

theorem getD_set_ne {α : Type} (l : List α) (i j : Nat) (a d : α) (h : i ≠ j) :
    (l.set i a).getD j d = l.getD j d := by
  induction l generalizing i j with
  | nil => simp
  | cons x xs ih =>
    cases i with
    | zero =>
      cases j with
      | zero => exact absurd rfl h
      | succ j => simp
    | succ i =>
      cases j with
      | zero => simp
      | succ j =>
        simp only [List.set_cons_succ, List.getD_cons_succ]
        exact ih i j (by omega)

theorem heapRead_write_ne (hp : Heap) (r : Nat) (k v : Int) (i : Nat) (hne : i ≠ r) :
    heapRead (heapWrite hp r k v) i = heapRead hp i := by
  unfold heapRead heapWrite
  exact getD_set_ne _ _ _ _ _ (fun h => hne h.symm)

theorem heapRead_writes_ne (ws : List (Int × Int)) (hp : Heap) (r : Nat) (i : Nat)
    (hne : i ≠ r) : heapRead (heapWrites hp r ws) i = heapRead hp i := by
  induction ws generalizing hp with
  | nil => rfl
  | cons kv ws ih =>
    obtain ⟨k, v⟩ := kv
    rw [heapWrites, ih (heapWrite hp r k v), heapRead_write_ne hp r k v i hne]

/-- Claim C6: `GetFixQualityDistribution` returns a defensive copy.
The returned reference is distinct from the averager's internal
histogram reference, and after any sequence of mutations a caller
applies through the returned reference, the internal histogram — as
read by any subsequent operation — is unchanged. -/
theorem GetFixQualityDistribution_defensive (hp : Heap) (distRef : Nat)
    (h : distRef < hp.length) (ws : List (Int × Int)) :
    (GetFixQualityDistribution hp distRef).2 ≠ distRef ∧
    heapRead (heapWrites (GetFixQualityDistribution hp distRef).1
        (GetFixQualityDistribution hp distRef).2 ws) distRef
      = heapRead hp distRef := by
  constructor
  · exact fun hc => absurd (hc ▸ h) (lt_irrefl _)
  · rw [heapRead_writes_ne ws _ _ _ (by exact fun hc => absurd (hc ▸ h) (lt_irrefl _))]
    unfold GetFixQualityDistribution heapRead
    exact List.getD_append _ _ _ _ h

/-- Witness for C6: a heap holding one histogram entry `(3, 1)` at
reference 0; the caller overwrites key 3 with 100 in the returned copy
and the internal histogram still reads `[(3, 1)]`. -/
theorem GetFixQualityDistribution_defensive_witness :
    (GetFixQualityDistribution [[(3, 1)]] 0).2 ≠ 0 ∧
    heapRead (heapWrites (GetFixQualityDistribution [[(3, 1)]] 0).1
        (GetFixQualityDistribution [[(3, 1)]] 0).2 [(3, 100)]) 0
      = heapRead [[(3, 1)]] 0 :=
  GetFixQualityDistribution_defensive [[(3, 1)]] 0 (by decide) [(3, 100)]

/-! ## RTK processor (`internal/rtk/processor.go`, claims C8 and C9)

`ProcessRTCM` appends incoming bytes to `p.rtcmData`, runs the decode
pipeline — the external `go-gnss/rtcm` library parser followed by
`processRTCMMessages` and `computeRTKSolution`, which also consults
wall-clock time — then, when a solution was produced, records it and
sends it into the bounded solution channel without blocking
(`select` with a `default` arm), and finally clears the buffer.  The
external-library decode step and the wall clock are not part of this
repository, so the embedding abstracts exactly that step as a `decode`
function from the buffered bytes to an optional solution (`none` when
parsing yields no messages or `computeRTKSolution` returns an error);
everything downstream — buffer management, the solutions log,
`lastSolution`, and the channel discipline — is translated from the
source. -/

/-- `RTKSolution` (floats as rationals, the solution time as an
integer tick). -/
structure RTKSolution where
  status : Int
  latitude : ℚ
  longitude : ℚ
  altitude : ℚ
  time : Int
  numSats : Int
  hdop : ℚ
deriving Repr, DecidableEq

/-- Capacity of the solution channel: `make(chan RTKSolution, 10)` in
`NewProcessorWithMode`. -/
def solutionChanCap : Nat := 10

/-- `Processor` state: the RTCM byte buffer, the accumulated solutions,
the last solution, the buffered contents of the bounded solution
channel (oldest first), and the mode string. -/
structure Processor where
  rtcmData : List Nat
  solutions : List RTKSolution
  lastSolution : Option RTKSolution
  solutionChan : List RTKSolution
  mode : String
deriving Repr, DecidableEq

/-- `NewProcessorWithMode` (invalid modes fall back to "kinematic"). -/
def NewProcessorWithMode (mode : String) : Processor :=
  { rtcmData := []
    solutions := []
    lastSolution := none
    solutionChan := []
    mode := if mode ≠ "static" ∧ mode ≠ "kinematic" then "kinematic" else mode }

/-- The non-blocking send `select { case ch <- sol: default: }` on a
channel of capacity `solutionChanCap`: append when a slot is free,
otherwise drop the new value. -/
def trySendSolution (ch : List RTKSolution) (sol : RTKSolution) : List RTKSolution :=
  if ch.length < solutionChanCap then ch ++ [sol] else ch

/-- `Processor.ProcessRTCM`, with the external decode step abstracted
as `decode` (see the section comment). -/
def ProcessRTCM (p : Processor) (decode : List Nat → Option RTKSolution)
    (data : List Nat) : Processor :=
  let buf := p.rtcmData ++ data
  if buf.length > 0 then
    match decode buf with
    | some solution =>
        { p with
            rtcmData := [],
            solutions := p.solutions ++ [solution],
            lastSolution := some solution,
            solutionChan := trySendSolution p.solutionChan solution }
    | none => { p with rtcmData := [] }
  else { p with rtcmData := buf }

/-- Claim C9: after every `ProcessRTCM` call the internal `rtcmData`
buffer is empty — bytes of an incomplete trailing frame are discarded
at the end of the call and can never be combined with bytes supplied
in a later call. -/
theorem ProcessRTCM_clears_buffer (p : Processor)
    (decode : List Nat → Option RTKSolution) (data : List Nat) :
    (ProcessRTCM p decode data).rtcmData = [] := by
  simp only [ProcessRTCM]
  split
  · split <;> rfl
  · next h =>
    have hnil : p.rtcmData ++ data = [] :=
      List.length_eq_zero.mp (Nat.eq_zero_of_not_pos h)
    show p.rtcmData ++ data = []
    exact hnil

/-- Claim C8: an accepted update (the decode pipeline produced a
solution from a nonempty buffer) records exactly one solution and
performs exactly one non-blocking send on the capacity-10 channel:
the solution is appended when a slot is free, and when the channel
already holds 10 undelivered solutions the new (newest) solution is
discarded with the channel contents unchanged. -/
theorem ProcessRTCM_channel_spec (p : Processor)
    (decode : List Nat → Option RTKSolution) (data : List Nat) (sol : RTKSolution)
    (hne : p.rtcmData ++ data ≠ [])
    (hdec : decode (p.rtcmData ++ data) = some sol) :
    solutionChanCap = 10 ∧
    (ProcessRTCM p decode data).solutions = p.solutions ++ [sol] ∧
    (p.solutionChan.length < solutionChanCap →
      (ProcessRTCM p decode data).solutionChan = p.solutionChan ++ [sol]) ∧
    (solutionChanCap ≤ p.solutionChan.length →
      (ProcessRTCM p decode data).solutionChan = p.solutionChan) := by
  have hlen : (p.rtcmData ++ data).length > 0 := by
    cases hb : p.rtcmData ++ data with
    | nil => exact absurd hb hne
    | cons x xs => simp
  refine ⟨rfl, ?_, ?_, ?_⟩
  · simp only [ProcessRTCM, if_pos hlen, hdec]
  · intro h
    simp only [ProcessRTCM, if_pos hlen, hdec]
    simp [trySendSolution, if_pos h]
  · intro h
    simp only [ProcessRTCM, if_pos hlen, hdec]
    simp [trySendSolution, if_neg (not_lt.mpr h)]

/-- An arbitrary concrete solution and decode outcome for the C8
witness. -/
def solEx : RTKSolution := ⟨4, 51.5074, -0.1278, 45, 0, 7, 0.8⟩

def decodeEx : List Nat → Option RTKSolution := fun _ => some solEx

/-- A processor whose solution channel is full (10 buffered solutions). -/
def fullProcessor : Processor :=
  { rtcmData := []
    solutions := []
    lastSolution := none
    solutionChan := List.replicate 10 solEx
    mode := "static" }

/-- Witness for C8: from a fresh processor the accepted update lands in
the channel; with a full channel the newest solution is dropped and the
channel contents are unchanged. -/
theorem ProcessRTCM_channel_spec_witness :
    (ProcessRTCM (NewProcessorWithMode "kinematic") decodeEx [0xD3]).solutionChan
      = [solEx] ∧
    (ProcessRTCM fullProcessor decodeEx [0xD3]).solutionChan
      = fullProcessor.solutionChan := by
  have h1 := ProcessRTCM_channel_spec (NewProcessorWithMode "kinematic") decodeEx [0xD3]
    solEx (by simp [NewProcessorWithMode]) rfl
  have h2 := ProcessRTCM_channel_spec fullProcessor decodeEx [0xD3]
    solEx (by simp [fullProcessor]) rfl
  constructor
  · exact (h1.2.2.1 (by simp [NewPositionAverager, NewProcessorWithMode, solutionChanCap])).trans
      (List.nil_append _)
  · exact h2.2.2.2 (by simp [fullProcessor, solutionChanCap])

/-! ## Checksum validation (claim C1)

Neither `RTCMParser.Process` nor `UBXParser.Process` inspects the
trailing checksum bytes of a frame: both copy the payload and emit the
message with `Valid: true` as soon as the sync marker matches and the
declared length is buffered.  The UBX running-sum checksum is
implemented elsewhere in the repository (`calculateUBXChecksum`, used
only on the message-construction side) and is translated from there;
the CRC-24Q has no implementation anywhere in the repository and is
modelled from the spec, only to state the counterexample. -/

/-- Modelled from the spec: the RTCM3 frame trailer is a "CRC-24Q
checksum over header+payload" (spec section 4.2); no CRC code exists in
the repository.  This is the Qualcomm 24-bit CRC, polynomial
0x1864CFB, zero initial value, MSB-first. -/
def crc24q (data : List Nat) : Nat :=
  data.foldl
    (fun crc b =>
      (List.range 8).foldl
        (fun c _ =>
          if (c <<< 1) &&& 0x1000000 ≠ 0 then ((c <<< 1) ^^^ 0x1864CFB) &&& 0xFFFFFF
          else (c <<< 1) &&& 0xFFFFFF)
        (crc ^^^ (b <<< 16)))
    0

/-- `calculateUBXChecksum` from the GNSS-receiver utilities of this
repository: the UBX trailer running-sum pair over the first `length`
bytes of `data` (`ck_a += data[i]; ck_b += ck_a`, `byte` arithmetic,
i.e. mod 256).  Its caller passes `msg[2:]` (class, id, length bytes
and payload) and `len(payload) + 4`.  `UBXParser.Process` never calls
it. -/
def calculateUBXChecksum (data : List Nat) (length : Nat) : Nat × Nat :=
  (data.take length).foldl (fun ck b => ((ck.1 + b) % 256, (ck.2 + ck.1 + b) % 256)) (0, 0)

/-- An RTCM3 frame (payload length 1, payload byte 0x42) whose CRC-24Q
trailer 0x996E52 is correct. -/
def rtcmFrameGood : List Nat := [0xD3, 0x00, 0x01, 0x42, 0x99, 0x6E, 0x52]

/-- `rtcmFrameGood` with a single bit flipped inside the payload
(0x42 to 0x43); its trailer no longer matches the CRC-24Q. -/
def rtcmFrameFlipped : List Nat := [0xD3, 0x00, 0x01, 0x43, 0x99, 0x6E, 0x52]

/-- The UBX frame from the repository's own parser test
(`TestUBXParser`): class 0x01, id 0x07, payload [1, 2, 3, 4], trailer
bytes (0xAA, 0xBB) that do not match the running-sum checksum
(0x16, 0x65) — and which the test expects to be emitted as valid. -/
def ubxFrameBadChecksum : List Nat :=
  [0xB5, 0x62, 0x01, 0x07, 0x04, 0x00, 0x01, 0x02, 0x03, 0x04, 0xAA, 0xBB]

set_option maxRecDepth 16384 in
/-- Counterexample to claim C1: flipping one payload bit of a
CRC-correct RTCM3 frame invalidates its CRC-24Q, yet
`RTCMParser.Process` still emits the frame as a valid message; and
`UBXParser.Process` emits a UBX frame whose running-sum checksum does
not match (the repository's own test frame).  Neither parser rejects a
checksum-corrupt frame. -/
theorem checksum_rejection_counterexample :
    crc24q (rtcmFrameGood.take 4) = 0x996E52 ∧
    rtcmFrameFlipped = rtcmFrameGood.set 3 (rtcmFrameGood.getD 3 0 ^^^ 0x01) ∧
    crc24q (rtcmFrameFlipped.take 4) ≠ 0x996E52 ∧
    (rtcmProcess [] rtcmFrameFlipped).1 = [⟨0x439, 1, [0x43], true⟩] ∧
    calculateUBXChecksum (ubxFrameBadChecksum.drop 2) 8 = (0x16, 0x65) ∧
    ((0x16 : Nat), (0x65 : Nat)) ≠ ((0xAA : Nat), (0xBB : Nat)) ∧
    (ubxProcess [] ubxFrameBadChecksum).1
      = [⟨0x01, 0x07, 4, [0x01, 0x02, 0x03, 0x04], true⟩] := by
  decide

/-- Claim C1 as amended: the parsers validate no checksum at all.
Whenever the sync marker matches and the declared frame length is
buffered, the frame is emitted with `Valid := true` regardless of its
trailing checksum bytes — in particular a frame whose payload bit was
flipped (hence whose checksum no longer matches) is still emitted, and
parsing continues behind the frame. -/
theorem process_no_checksum_validation :
    (∀ buf : List Nat, buf.getD 0 0 = 0xD3 →
      (((buf.getD 1 0 &&& 0x03) <<< 8) ||| buf.getD 2 0) + 6 ≤ buf.length →
      (rtcmDrain buf).1 =
        ⟨(buf.getD 3 0 <<< 4) ||| (buf.getD 4 0 >>> 4),
         ((buf.getD 1 0 &&& 0x03) <<< 8) ||| buf.getD 2 0,
         (buf.drop 3).take (((buf.getD 1 0 &&& 0x03) <<< 8) ||| buf.getD 2 0),
         true⟩ ::
          (rtcmDrain (buf.drop ((((buf.getD 1 0 &&& 0x03) <<< 8) ||| buf.getD 2 0) + 6))).1) ∧
    (∀ buf : List Nat, buf.getD 0 0 = 0xB5 → buf.getD 1 0 = 0x62 →
      (buf.getD 4 0 ||| (buf.getD 5 0 <<< 8)) + 8 ≤ buf.length →
      (ubxDrain buf).1 =
        ⟨buf.getD 2 0, buf.getD 3 0, buf.getD 4 0 ||| (buf.getD 5 0 <<< 8),
         (buf.drop 6).take (buf.getD 4 0 ||| (buf.getD 5 0 <<< 8)), true⟩ ::
          (ubxDrain (buf.drop ((buf.getD 4 0 ||| (buf.getD 5 0 <<< 8)) + 8))).1) := by
  constructor
  · intro buf h0 hlen
    rw [rtcmDrain_eq, if_neg (by omega), if_pos h0, if_neg (by omega), if_neg (by omega)]
  · intro buf hb5 hb62 hlen
    rw [ubxDrain_eq, if_neg (by omega), if_pos ⟨hb5, hb62⟩, if_neg (by omega)]

/-- Witness for the amended C1: the bit-flipped RTCM frame and the
bad-checksum UBX frame are both emitted. -/
theorem process_no_checksum_validation_witness :
    (rtcmDrain rtcmFrameFlipped).1.headD ⟨0, 0, [], false⟩ = ⟨0x439, 1, [0x43], true⟩ ∧
    (ubxDrain ubxFrameBadChecksum).1.headD ⟨0, 0, 0, [], false⟩
      = ⟨0x01, 0x07, 4, [0x01, 0x02, 0x03, 0x04], true⟩ := by
  have h1 := process_no_checksum_validation.1 rtcmFrameFlipped (by decide) (by decide)
  have h2 := process_no_checksum_validation.2 ubxFrameBadChecksum
    (by decide) (by decide) (by decide)
  constructor
  · rw [h1]; decide
  · rw [h2]; decide

/-! ## NMEA parser (`internal/parser/nmea.go`, claims C7 and C10)

Go strings are embedded as `List Char`.  The parser stores the text
after the last `*` as the checksum but never compares it against the
sentence body. -/

/-- `NMEASentence` from `internal/parser/nmea.go`. -/
structure NMEASentence where
  type : List Char
  fields : List (List Char)
  valid : Bool
  checksum : List Char
deriving Repr, DecidableEq

/-- Go `strings.LastIndex(sentence, "*")` (`none` for -1). -/
def lastStarPos : List Char → Option Nat
  | [] => none
  | c :: t =>
    match lastStarPos t with
    | some p => some (p + 1)
    | none => if c = '*' then some 0 else none

/-- The data part handed to the comma split: everything before the last
`*` when at least two characters follow it, otherwise the whole
sentence (`checksumPos != -1 && checksumPos < len(sentence)-2`). -/
def nmeaData (s : List Char) : List Char :=
  match lastStarPos s with
  | some p => if p + 2 < s.length then s.take p else s
  | none => s

/-- The stored checksum text: the characters after the last `*` under
the same condition, otherwise empty (Go zero value). -/
def nmeaChecksumText (s : List Char) : List Char :=
  match lastStarPos s with
  | some p => if p + 2 < s.length then s.drop (p + 1) else []
  | none => []

/-- Go `strings.Split(data, ",")`. -/
def splitComma : List Char → List (List Char)
  | [] => [[]]
  | c :: t =>
    let r := splitComma t
    if c = ',' then [] :: r
    else (c :: r.headD []) :: r.tail

/-- Go `strings.TrimPrefix(s, "$")`. -/
def trimDollar : List Char → List Char
  | '$' :: t => t
  | l => l

/-- `NMEAParser.Parse`.  Early returns carry the zero-valued result
(empty type/fields, `Valid: false`); the checksum field is populated
before the field-count check, exactly as in the source. -/
def NMEAParse (sentence : List Char) : NMEASentence :=
  if sentence.length < 6 then ⟨[], [], false, []⟩
  else if sentence.getD 0 ' ' ≠ '$' then ⟨[], [], false, []⟩
  else
    let fields := splitComma (nmeaData sentence)
    if fields.length < 2 then ⟨[], [], false, nmeaChecksumText sentence⟩
    else ⟨trimDollar (fields.headD []), fields.tail, true, nmeaChecksumText sentence⟩

/-! ### GGA field decoding (`internal/position/position.go`) -/

/-- Decimal digit accumulator shared by the `strconv` models. -/
def digitsVal (l : List Char) : Nat :=
  l.foldl (fun a c => a * 10 + (c.toNat - '0'.toNat)) 0

def allDigits (l : List Char) : Bool :=
  l.all Char.isDigit

/-- Go `strconv.Atoi` with the error discarded, as in the source
(`fixQuality, _ := strconv.Atoi(...)`): malformed input yields the zero
value. -/
def parseAtoi (l : List Char) : Int :=
  match l with
  | '-' :: t => if t ≠ [] ∧ allDigits t = true then -(digitsVal t : Int) else 0
  | '+' :: t => if t ≠ [] ∧ allDigits t = true then (digitsVal t : Int) else 0
  | _ => if l ≠ [] ∧ allDigits l = true then (digitsVal l : Int) else 0

/-- Unsigned part of the `strconv.ParseFloat` model: plain decimal
literals (the only shape occurring in NMEA fields), taken exactly as
rationals; malformed input yields the zero value (error discarded in
the source). -/
def parseFloatPos (l : List Char) : ℚ :=
  let ip := l.takeWhile (fun c => c ≠ '.')
  let rest := l.dropWhile (fun c => c ≠ '.')
  match rest with
  | [] => if l ≠ [] ∧ allDigits l = true then (digitsVal l : ℚ) else 0
  | _ :: fp =>
    if ip ++ fp ≠ [] ∧ allDigits ip = true ∧ allDigits fp = true then
      (digitsVal ip : ℚ) + (digitsVal fp : ℚ) / (10 ^ fp.length : ℚ)
    else 0

/-- Go `strconv.ParseFloat` model with an optional sign. -/
def parseFloat (l : List Char) : ℚ :=
  match l with
  | '-' :: t => -(parseFloatPos t)
  | '+' :: t => parseFloatPos t
  | _ => parseFloatPos l

/-- Go `int(f)` on a `float64`: truncation toward zero, expressed with
floors. -/
def float2int (q : ℚ) : Int :=
  if 0 ≤ q then ⌊q⌋ else -⌊-q⌋

/-- `convertNMEACoordinate` from `internal/position/position.go`:
`DDMM.MMMM` to signed decimal degrees. -/
def convertNMEACoordinate (coord : ℚ) (isNegative : Bool) : ℚ :=
  let degrees : ℚ := (float2int (coord / 100) : ℚ)
  let minutes := coord - degrees * 100
  let decimal := degrees + minutes / 60
  if isNegative then -decimal else decimal

/-- `GetFixQualityDescription` from `internal/position/position.go`. -/
def GetFixQualityDescription (quality : Int) : String :=
  if quality = 0 then "Invalid"
  else if quality = 1 then "GPS Fix"
  else if quality = 2 then "DGPS Fix"
  else if quality = 3 then "PPS Fix"
  else if quality = 4 then "RTK Fix"
  else if quality = 5 then "Float RTK"
  else if quality = 6 then "Estimated"
  else if quality = 7 then "Manual Input"
  else if quality = 8 then "Simulation"
  else "Unknown (" ++ toString quality ++ ")"

/-- `ExtractFromGGA` from `internal/position/position.go`.  The
wall-clock timestamp reconstruction (`time.Now()` plus the time field)
is omitted along with the `Position.Timestamp` field; every other
field is translated.  Hemisphere comparisons are Go string equality. -/
def ExtractFromGGA (sentence : NMEASentence) : Except String Position :=
  if ¬ ("GGA".toList.isSuffixOf sentence.type) ∨ sentence.fields.length < 14 then
    .error "not a valid GGA sentence"
  else
    let lat := parseFloat (sentence.fields.getD 1 [])
    let latDir := sentence.fields.getD 2 []
    let latitude := convertNMEACoordinate lat (if latDir = "S".toList then true else false)
    let lon := parseFloat (sentence.fields.getD 3 [])
    let lonDir := sentence.fields.getD 4 []
    let longitude := convertNMEACoordinate lon (if lonDir = "W".toList then true else false)
    let fixQuality := parseAtoi (sentence.fields.getD 5 [])
    let satellites := parseAtoi (sentence.fields.getD 6 [])
    let hdop := parseFloat (sentence.fields.getD 7 [])
    let altitude := parseFloat (sentence.fields.getD 8 [])
    .ok
      { latitude := latitude
        longitude := longitude
        altitude := altitude
        fixQuality := fixQuality
        satellites := satellites
        hdop := hdop
        description := GetFixQualityDescription fixQuality }

/-! ### Evaluation lemmas for the float model -/

theorem takeWhile_digits_dot (ip : List Char) (fp : List Char) (h : allDigits ip = true) :
    (ip ++ '.' :: fp).takeWhile (fun c => c ≠ '.') = ip := by
  induction ip with
  | nil => simp [List.takeWhile]
  | cons c t ih =>
    have h2 : c.isDigit = true ∧ allDigits t = true := by
      simpa [allDigits, List.all_cons, Bool.and_eq_true] using h
    have hne : c ≠ '.' := by
      intro hcd
      subst hcd
      exact absurd h2.1 (by decide)
    simp only [List.cons_append, List.takeWhile_cons, decide_eq_true_eq]
    rw [if_pos hne, ih h2.2]

theorem dropWhile_digits_dot (ip : List Char) (fp : List Char) (h : allDigits ip = true) :
    (ip ++ '.' :: fp).dropWhile (fun c => c ≠ '.') = '.' :: fp := by
  induction ip with
  | nil => simp [List.dropWhile]
  | cons c t ih =>
    have h2 : c.isDigit = true ∧ allDigits t = true := by
      simpa [allDigits, List.all_cons, Bool.and_eq_true] using h
    have hne : c ≠ '.' := by
      intro hcd
      subst hcd
      exact absurd h2.1 (by decide)
    simp only [List.cons_append, List.dropWhile_cons, decide_eq_true_eq]
    rw [if_pos hne, ih h2.2]

theorem parseFloatPos_eval (ip fp : List Char) (hip : allDigits ip = true)
    (hfp : allDigits fp = true) (hne : ip ++ fp ≠ []) :
    parseFloatPos (ip ++ '.' :: fp)
      = (digitsVal ip : ℚ) + (digitsVal fp : ℚ) / (10 ^ fp.length : ℚ) := by
  simp only [parseFloatPos]
  rw [takeWhile_digits_dot ip fp hip, dropWhile_digits_dot ip fp hip]
  show (if ip ++ fp ≠ [] ∧ allDigits ip = true ∧ allDigits fp = true then
      (digitsVal ip : ℚ) + (digitsVal fp : ℚ) / (10 ^ fp.length : ℚ)
    else 0) = (digitsVal ip : ℚ) + (digitsVal fp : ℚ) / (10 ^ fp.length : ℚ)
  rw [if_pos ⟨hne, hip, hfp⟩]

theorem convertNMEACoordinate_pos (D : ℤ) (M : ℚ) (hD : 0 ≤ D) (h0 : 0 ≤ M) (h1 : M < 100) :
    convertNMEACoordinate ((D : ℚ) * 100 + M) false = (D : ℚ) + M / 60 := by
  have hDq : (0 : ℚ) ≤ (D : ℚ) := by exact_mod_cast hD
  have hcd : ((D : ℚ) * 100 + M) / 100 = (D : ℚ) + M / 100 := by ring
  have hM100 : (0 : ℚ) ≤ M / 100 := by positivity
  have hfloor : ⌊(D : ℚ) + M / 100⌋ = D := by
    rw [Int.floor_eq_iff]
    constructor
    · linarith
    · have : M / 100 < 1 := (div_lt_one (by norm_num)).mpr h1
      linarith
  simp only [convertNMEACoordinate, float2int]
  rw [hcd]
  rw [if_pos (show (0 : ℚ) ≤ (D : ℚ) + M / 100 by linarith)]
  rw [hfloor]
  simp only [Bool.false_eq_true, if_false]
  ring

/-- The spec's NMEA round-trip sentence. -/
def ggaExample : List Char :=
  "$GNGGA,123519,4807.038,N,01131.000,E,1,08,0.9,545.4,M,46.9,M,,*47".toList

set_option maxRecDepth 16384 in
theorem ggaExample_parse :
    NMEAParse ggaExample =
      ⟨"GNGGA".toList,
       ["123519".toList, "4807.038".toList, "N".toList, "01131.000".toList, "E".toList,
        "1".toList, "08".toList, "0.9".toList, "545.4".toList, "M".toList, "46.9".toList,
        "M".toList, "".toList, "".toList],
       true, "47".toList⟩ := by
  decide

/-- Claim C7: parsing the spec's GGA sentence yields type `GNGGA`,
exactly 14 fields, checksum text "47", and GGA decoding of those fields
yields latitude 48 + 7.038/60 degrees, longitude 11 + 31.000/60
degrees, fix quality 1, 8 satellites, HDOP 0.9, altitude 545.4 (all
exact rationals in the embedding). -/
theorem nmea_gga_roundtrip :
    (NMEAParse ggaExample).type = "GNGGA".toList ∧
    (NMEAParse ggaExample).fields.length = 14 ∧
    (NMEAParse ggaExample).checksum = "47".toList ∧
    (NMEAParse ggaExample).valid = true ∧
    (∃ pos, ExtractFromGGA (NMEAParse ggaExample) = .ok pos ∧
      pos.latitude = 48 + 7.038 / 60 ∧
      pos.longitude = 11 + 31.000 / 60 ∧
      pos.fixQuality = 1 ∧
      pos.satellites = 8 ∧
      pos.hdop = 0.9 ∧
      pos.altitude = 545.4) := by
  refine ⟨by rw [ggaExample_parse], by rw [ggaExample_parse]; rfl,
    by rw [ggaExample_parse], by rw [ggaExample_parse], ?_⟩
  rw [ggaExample_parse]
  have hex : ExtractFromGGA
      ⟨"GNGGA".toList,
       ["123519".toList, "4807.038".toList, "N".toList, "01131.000".toList, "E".toList,
        "1".toList, "08".toList, "0.9".toList, "545.4".toList, "M".toList, "46.9".toList,
        "M".toList, "".toList, "".toList],
       true, "47".toList⟩
      = .ok
        { latitude := convertNMEACoordinate (parseFloat "4807.038".toList) false
          longitude := convertNMEACoordinate (parseFloat "01131.000".toList) false
          altitude := parseFloat "545.4".toList
          fixQuality := parseAtoi "1".toList
          satellites := parseAtoi "08".toList
          hdop := parseFloat "0.9".toList
          description := GetFixQualityDescription (parseAtoi "1".toList) } := by
    rfl
  refine ⟨_, hex, ?_, ?_, ?_, ?_, ?_, ?_⟩
  · have hsplit : "4807.038".toList = "4807".toList ++ '.' :: "038".toList := by decide
    rw [show parseFloat "4807.038".toList = parseFloatPos "4807.038".toList from rfl, hsplit,
      parseFloatPos_eval _ _ (by decide) (by decide) (by decide)]
    rw [show (digitsVal "4807".toList : ℚ) + (digitsVal "038".toList : ℚ)
          / (10 ^ ("038".toList.length) : ℚ)
        = ((48 : ℤ) : ℚ) * 100 + (7 + 38 / 1000) by
      norm_num [show digitsVal ['4', '8', '0', '7'] = 4807 from by decide,
        show digitsVal ['0', '3', '8'] = 38 from by decide]]
    rw [convertNMEACoordinate_pos 48 (7 + 38 / 1000) (by norm_num) (by norm_num) (by norm_num)]
    norm_num
  · have hsplit : "01131.000".toList = "01131".toList ++ '.' :: "000".toList := by decide
    rw [show parseFloat "01131.000".toList = parseFloatPos "01131.000".toList from rfl, hsplit,
      parseFloatPos_eval _ _ (by decide) (by decide) (by decide)]
    rw [show (digitsVal "01131".toList : ℚ) + (digitsVal "000".toList : ℚ)
          / (10 ^ ("000".toList.length) : ℚ)
        = ((11 : ℤ) : ℚ) * 100 + 31 by
      norm_num [show digitsVal ['0', '1', '1', '3', '1'] = 1131 from by decide,
        show digitsVal ['0', '0', '0'] = 0 from by decide]]
    rw [convertNMEACoordinate_pos 11 31 (by norm_num) (by norm_num) (by norm_num)]
    norm_num
  · decide
  · decide
  · have hsplit : "0.9".toList = "0".toList ++ '.' :: "9".toList := by decide
    rw [show parseFloat "0.9".toList = parseFloatPos "0.9".toList from rfl, hsplit,
      parseFloatPos_eval _ _ (by decide) (by decide) (by decide)]
    norm_num [show digitsVal ['0'] = 0 from by decide,
      show digitsVal ['9'] = 9 from by decide]
  · have hsplit : "545.4".toList = "545".toList ++ '.' :: "4".toList := by decide
    rw [show parseFloat "545.4".toList = parseFloatPos "545.4".toList from rfl, hsplit,
      parseFloatPos_eval _ _ (by decide) (by decide) (by decide)]
    norm_num [show digitsVal ['5', '4', '5'] = 545 from by decide,
      show digitsVal ['4'] = 4 from by decide]

/-- Claim C10: `NMEAParser.Parse` never verifies the NMEA checksum.
Any sentence of length at least 6 that starts with `$` and whose data
part splits into at least two comma-separated fields is returned with
`Valid = true`; the checksum text is stored in the result but never
compared against the sentence body (there is no checksum hypothesis in
this theorem). -/
theorem NMEAParse_no_checksum_verification (s : List Char)
    (h6 : 6 ≤ s.length) (hd : s.getD 0 ' ' = '$')
    (hf : 2 ≤ (splitComma (nmeaData s)).length) :
    (NMEAParse s).valid = true ∧
    (NMEAParse s).checksum = nmeaChecksumText s := by
  simp only [NMEAParse]
  rw [if_neg (by omega), if_neg (fun hne => hne hd), if_neg (by omega)]
  exact ⟨rfl, rfl⟩

/-- Modelled from the spec: the NMEA checksum is the XOR of the
sentence bytes between `$` and `*` ("optional checksum after the last
`*` (two hex digits)", spec section 4.4); no code in the parser
computes it. -/
def nmeaXorChecksum (s : List Char) : Nat :=
  ((nmeaData s).drop 1).foldl (fun a c => a ^^^ c.toNat) 0

/-- Hexadecimal value of the stored checksum text. -/
def hexDigitVal (c : Char) : Nat :=
  if '0' ≤ c ∧ c ≤ '9' then c.toNat - '0'.toNat
  else if 'A' ≤ c ∧ c ≤ 'F' then c.toNat - 'A'.toNat + 10
  else if 'a' ≤ c ∧ c ≤ 'f' then c.toNat - 'a'.toNat + 10
  else 0

def hexVal (l : List Char) : Nat :=
  l.foldl (fun a c => a * 16 + hexDigitVal c) 0

/-- The spec sentence with its checksum text corrupted to "00". -/
def badChecksumSentence : List Char :=
  "$GNGGA,123519,4807.038,N,01131.000,E,1,08,0.9,545.4,M,46.9,M,,*00".toList

set_option maxRecDepth 16384 in
/-- Witness for C10: a sentence whose stored checksum (0x00) differs
from the XOR of its body, yet `Parse` marks it valid. -/
theorem NMEAParse_no_checksum_verification_witness :
    hexVal (nmeaChecksumText badChecksumSentence) ≠ nmeaXorChecksum badChecksumSentence ∧
    (NMEAParse badChecksumSentence).valid = true := by
  constructor
  · decide
  · exact (NMEAParse_no_checksum_verification badChecksumSentence
      (by decide) (by decide) (by decide)).1

end GoNtrip
